import Mathlib

/-!
# The export qualifier of `src/Native/jitinterface/dllexport.h`

The header is five preprocessing lines (after three comment lines and a blank
one):

    #ifdef _WIN32
    #define DLL_EXPORT extern "C" __declspec(dllexport)
    #else
    #define DLL_EXPORT extern "C" __attribute((visibility("default")))
    #endif

It is embedded as the list of its lines, read by a small model of the
translation phase that handles them: conditional inclusion (`#ifdef`, `#else`,
`#endif`), definition of object-like names (`#define`), and replacement, with
rescanning, of the defined names in a line of tokens.
-/

namespace DllExport

/-! ## Preprocessing tokens -/

/-- A preprocessing token: identifier, string literal (content without the
quotes), number, or punctuator. -/
inductive Token where
  | ident (name : String)
  | str (content : String)
  | num (spelling : String)
  | punct (spelling : String)
  deriving DecidableEq, Repr

/-- Definitions in force: each defined name with its replacement list, the most
recent definition first. -/
abbrev Env := List (String × List Token)

/-- Replacement list of `name`, when it is defined. -/
def lookupDef : Env → String → Option (List Token)
  | [], _ => none
  | (n, body) :: rest, name => if n = name then some body else lookupDef rest name

/-- The test of `#ifdef name`. -/
def isDefined (env : Env) (name : String) : Bool :=
  (lookupDef env name).isSome

/-- Forget every definition of `name`. -/
def undefine : Env → String → Env
  | [], _ => []
  | (n, body) :: rest, name =>
      if n = name then undefine rest name else (n, body) :: undefine rest name

/-! ## The lines of the header -/

/-- A line of a source file as the preprocessor sees it. -/
inductive Line where
  /-- A line holding only a comment, or nothing. -/
  | blank
  | ifdef (name : String)
  | ifndef (name : String)
  | orElse
  | endif
  | define (name : String) (body : List Token)
  | error
  deriving DecidableEq, Repr

/-- Name tested by the header: `_WIN32`. -/
abbrev _WIN32 : String := "_WIN32"

/-- Name defined by the header: `DLL_EXPORT`. -/
abbrev DLL_EXPORT : String := "DLL_EXPORT"

/-- The tokens `extern "C"`. -/
def linkageC : List Token := [.ident "extern", .str "C"]

/-- The tokens `__declspec(dllexport)`. -/
def declspecDllexport : List Token :=
  [.ident "__declspec", .punct "(", .ident "dllexport", .punct ")"]

/-- The tokens `__attribute((visibility("default")))`. -/
def attributeVisibilityDefault : List Token :=
  [.ident "__attribute", .punct "(", .punct "(", .ident "visibility", .punct "(",
   .str "default", .punct ")", .punct ")", .punct ")"]

/-- Replacement list on line 6: `extern "C" __declspec(dllexport)`. -/
def windowsExport : List Token :=
  [.ident "extern", .str "C", .ident "__declspec", .punct "(", .ident "dllexport", .punct ")"]

/-- Replacement list on line 8: `extern "C" __attribute((visibility("default")))`. -/
def posixExport : List Token :=
  [.ident "extern", .str "C", .ident "__attribute", .punct "(", .punct "(",
   .ident "visibility", .punct "(", .str "default", .punct ")", .punct ")", .punct ")"]

/-- The nine lines of `dllexport.h`. -/
def dllexport_h : List Line :=
  [ .blank,                                   -- 1  // Licensed to the .NET Foundation ...
    .blank,                                   -- 2  // The .NET Foundation licenses ...
    .blank,                                   -- 3  // See the LICENSE file ...
    .blank,                                   -- 4
    .ifdef _WIN32,                            -- 5  #ifdef _WIN32
    .define DLL_EXPORT windowsExport,         -- 6  #define DLL_EXPORT ...
    .orElse,                                  -- 7  #else
    .define DLL_EXPORT posixExport,           -- 8  #define DLL_EXPORT ...
    .endif ]                                  -- 9  #endif

/-! ## Directive processing -/

/-- Ways in which preprocessing stops with a diagnostic. -/
inductive PPError where
  | redefined (name : String)
  | strayElse
  | strayEndif
  | unterminatedConditional
  | errorDirective
  | depthExceeded
  deriving DecidableEq, Repr

/-- One open conditional: whether the enclosing group is being processed,
whether the test succeeded, and whether `#else` has been passed. -/
structure Cond where
  outer : Bool
  taken : Bool
  inElse : Bool
  deriving DecidableEq, Repr

/-- The group of an open conditional that is being read is processed when the
enclosing one is, and the test succeeded (before `#else`) or failed (after). -/
def Cond.active (c : Cond) : Bool :=
  c.outer && (c.taken != c.inElse)

/-- State of the preprocessor between two lines. -/
structure PPState where
  env : Env
  conds : List Cond
  deriving DecidableEq, Repr

/-- Whether the current line lies in a group that is processed. -/
def PPState.active (st : PPState) : Bool :=
  match st.conds with
  | [] => true
  | c :: _ => c.active

/-- `#define name body` for an object-like name: a new name is added; a name
already defined may only be defined again with the same replacement list. -/
def defineName (env : Env) (name : String) (body : List Token) : Except PPError Env :=
  match lookupDef env name with
  | none => .ok ((name, body) :: env)
  | some old => if old = body then .ok env else .error (.redefined name)

/-- Process one line. -/
def stepLine (st : PPState) : Line → Except PPError PPState
  | .blank => .ok st
  | .ifdef name =>
      .ok { st with conds := { outer := st.active, taken := isDefined st.env name,
                               inElse := false } :: st.conds }
  | .ifndef name =>
      .ok { st with conds := { outer := st.active, taken := !isDefined st.env name,
                               inElse := false } :: st.conds }
  | .orElse =>
      match st.conds with
      | [] => .error .strayElse
      | c :: cs =>
          if c.inElse then .error .strayElse
          else .ok { st with conds := { c with inElse := true } :: cs }
  | .endif =>
      match st.conds with
      | [] => .error .strayEndif
      | _ :: cs => .ok { st with conds := cs }
  | .define name body =>
      if st.active then
        match defineName st.env name body with
        | .ok env => .ok { st with env := env }
        | .error e => .error e
      else .ok st
  | .error => if st.active then .error .errorDirective else .ok st

/-- Process the lines of a file in order, stopping at the first diagnostic. -/
def processLines (st : PPState) : List Line → Except PPError PPState
  | [] => .ok st
  | l :: ls =>
      match stepLine st l with
      | .ok st1 => processLines st1 ls
      | .error e => .error e

/-- Process a whole file from the definitions `env`: every conditional it opens
must be closed at its end. -/
def includeFile (file : List Line) (env : Env) : Except PPError Env :=
  match processLines { env := env, conds := [] } file with
  | .ok st => if st.conds.isEmpty then .ok st.env else .error .unterminatedConditional
  | .error e => .error e

/-- `#include "dllexport.h"`. -/
def includeHeader (env : Env) : Except PPError Env :=
  includeFile dllexport_h env

/-! ## Replacement of defined names -/

/-- Replace the defined names of a token list. A name is replaced by its
replacement list, itself rescanned with that name no longer available for
replacement; `rescan` does the rescanning. -/
def expandList (rescan : Env → List Token → Except PPError (List Token)) (env : Env) :
    List Token → Except PPError (List Token)
  | [] => .ok []
  | tok :: rest =>
      let head : Except PPError (List Token) :=
        match tok with
        | .ident name =>
            match lookupDef env name with
            | some body => rescan (undefine env name) body
            | none => .ok [tok]
        | _ => .ok [tok]
      match head, expandList rescan env rest with
      | .ok h, .ok t => .ok (h ++ t)
      | .error e, _ => .error e
      | _, .error e => .error e

/-- Replacement with rescanning nested at most `depth` deep. -/
def expandTokens : Nat → Env → List Token → Except PPError (List Token)
  | 0, _, _ => .error .depthExceeded
  | depth + 1, env, toks => expandList (expandTokens depth) env toks

/-- Replace the defined names of a line of tokens. Each level of rescanning
removes a name from `env`, so `env.length + 1` levels always suffice. -/
def expandLine (env : Env) (toks : List Token) : Except PPError (List Token) :=
  expandTokens (env.length + 1) env toks

/-! ## Build configurations -/

/-- A build configuration: whether the toolchain targets Windows, that is,
whether it predefines `_WIN32`. -/
structure BuildConfig where
  win32 : Bool
  deriving DecidableEq, Repr

/-- Definitions in force before the first line is read. A Windows toolchain
predefines `_WIN32` as `1`. -/
def predefined (cfg : BuildConfig) : Env :=
  if cfg.win32 then [(_WIN32, [.num "1"])] else []

/-- The replacement list selected for a configuration. -/
def selectedExport (cfg : BuildConfig) : List Token :=
  if cfg.win32 then windowsExport else posixExport

/-- Preprocess a line of tokens that follows `#include "dllexport.h"`, with
`env` the definitions in force before the header is read. -/
def preprocessWith (env : Env) (toks : List Token) : Except PPError (List Token) :=
  match includeHeader env with
  | .ok env1 => expandLine env1 toks
  | .error e => .error e

/-- Preprocess a line of tokens that follows `#include "dllexport.h"` in a
build configuration. -/
def preprocessAfterHeader (cfg : BuildConfig) (toks : List Token) :
    Except PPError (List Token) :=
  preprocessWith (predefined cfg) toks

/-- Replacement list of `name` once the header has been read, `env` being the
earlier definitions; nothing when the header is rejected or leaves `name`
undefined. -/
def definitionAfterHeader (env : Env) (name : String) : Option (List Token) :=
  match includeHeader env with
  | .ok env1 => lookupDef env1 name
  | .error _ => none

/-- The declaration `void f();`, used as a sample. -/
def sampleDecl : List Token :=
  [.ident "void", .ident "f", .punct "(", .punct ")", .punct ";"]

/-! ## Lemmas on the preprocessing model -/

theorem undefine_length_le (env : Env) (name : String) :
    (undefine env name).length ≤ env.length := by
  induction env with
  | nil => simp [undefine]
  | cons p rest ih =>
      obtain ⟨n, body⟩ := p
      by_cases h : n = name
      · simp only [undefine, h, if_true, List.length_cons]; omega
      · simp only [undefine, h, if_false, List.length_cons]; omega

theorem undefine_length_lt (env : Env) (name : String) (body : List Token)
    (h : lookupDef env name = some body) :
    (undefine env name).length < env.length := by
  induction env with
  | nil => simp [lookupDef] at h
  | cons p rest ih =>
      obtain ⟨n, b⟩ := p
      by_cases hn : n = name
      · have := undefine_length_le rest name
        simp only [undefine, hn, if_true, List.length_cons]; omega
      · simp only [lookupDef, hn, if_false] at h
        have := ih h
        simp only [undefine, hn, if_false, List.length_cons]; omega

theorem undefine_of_not_defined (env : Env) (name : String)
    (h : lookupDef env name = none) : undefine env name = env := by
  induction env with
  | nil => rfl
  | cons p rest ih =>
      obtain ⟨n, b⟩ := p
      by_cases hn : n = name
      · simp [lookupDef, hn] at h
      · simp only [lookupDef, hn, if_false] at h
        simp [undefine, hn, ih h]

/-- Rescanning never runs out of depth when the depth exceeds the number
of definitions. -/
theorem expandTokens_total (depth : Nat) :
    ∀ (env : Env) (toks : List Token), env.length < depth →
      ∃ r, expandTokens depth env toks = .ok r := by
  induction depth with
  | zero => intro env toks h; omega
  | succ k ih =>
      intro env toks hlen
      induction toks with
      | nil => exact ⟨[], rfl⟩
      | cons tok rest iht =>
          obtain ⟨t, ht⟩ := iht
          simp only [expandTokens] at ht ⊢
          cases tok with
          | ident name =>
              cases hl : lookupDef env name with
              | none => exact ⟨[.ident name] ++ t, by simp [expandList, hl, ht]⟩
              | some body =>
                  have hlt := undefine_length_lt env name body hl
                  obtain ⟨h, hh⟩ := ih (undefine env name) body (by omega)
                  exact ⟨h ++ t, by simp [expandList, hl, ht, hh]⟩
          | str c => exact ⟨[.str c] ++ t, by simp [expandList, ht]⟩
          | num c => exact ⟨[.num c] ++ t, by simp [expandList, ht]⟩
          | punct c => exact ⟨[.punct c] ++ t, by simp [expandList, ht]⟩

/-- Replacement of the names of a line always yields a token list. -/
theorem expandLine_total (env : Env) (toks : List Token) :
    ∃ r, expandLine env toks = .ok r :=
  expandTokens_total (env.length + 1) env toks (by omega)

/-- A token list that mentions no defined name is left as it is. -/
theorem expandList_unmentioned (rescan : Env → List Token → Except PPError (List Token))
    (env : Env) (toks : List Token)
    (h : ∀ name, Token.ident name ∈ toks → lookupDef env name = none) :
    expandList rescan env toks = .ok toks := by
  induction toks with
  | nil => rfl
  | cons tok rest ih =>
      have hrest := ih (fun name hm => h name (List.mem_cons_of_mem _ hm))
      cases tok with
      | ident name =>
          have hl := h name (List.mem_cons_self _ _)
          simp [expandList, hl, hrest]
      | str c => simp [expandList, hrest]
      | num c => simp [expandList, hrest]
      | punct c => simp [expandList, hrest]

/-- What the header does when `DLL_EXPORT` is not yet defined: it adds
`DLL_EXPORT`, with the list of line 6 when `_WIN32` is defined and the list of
line 8 otherwise. -/
theorem includeHeader_fresh (env : Env) (h : lookupDef env DLL_EXPORT = none) :
    includeHeader env =
      .ok ((DLL_EXPORT, if isDefined env _WIN32 then windowsExport else posixExport) :: env) := by
  cases hw : isDefined env _WIN32 <;>
    simp [includeHeader, includeFile, dllexport_h, processLines, stepLine, PPState.active,
      Cond.active, defineName, hw, h]

/-- The header in a build configuration. -/
theorem includeHeader_predefined (cfg : BuildConfig) :
    includeHeader (predefined cfg) = .ok ((DLL_EXPORT, selectedExport cfg) :: predefined cfg) := by
  obtain ⟨w⟩ := cfg
  cases w <;> rfl

/-- The replacement list selected for a configuration holds no name that the
configuration defines: rescanning it changes nothing. -/
theorem expand_selectedExport (cfg : BuildConfig) :
    expandTokens ((predefined cfg).length + 1) (predefined cfg) (selectedExport cfg) =
      .ok (selectedExport cfg) := by
  obtain ⟨w⟩ := cfg
  cases w <;> rfl

/-- A use of `DLL_EXPORT` at the head of a line is replaced by the rescanned
replacement list; the rest of the line is preprocessed as it would be alone. -/
theorem expandLine_DLL_EXPORT_cons (env : Env) (body d : List Token)
    (h : lookupDef env DLL_EXPORT = none) :
    expandLine ((DLL_EXPORT, body) :: env) (.ident DLL_EXPORT :: d) =
      match expandTokens (env.length + 1) env body,
            expandLine ((DLL_EXPORT, body) :: env) d with
      | .ok q, .ok r => .ok (q ++ r)
      | .error e, _ => .error e
      | _, .error e => .error e := by
  simp [expandLine, expandTokens, expandList, lookupDef, undefine,
    undefine_of_not_defined env DLL_EXPORT h]

/-- In every configuration, `DLL_EXPORT d` preprocesses to the selected
replacement list followed by what `d` preprocesses to. -/
theorem preprocess_DLL_EXPORT_cons (cfg : BuildConfig) (d : List Token) :
    ∃ r, preprocessAfterHeader cfg d = .ok r ∧
      preprocessAfterHeader cfg (.ident DLL_EXPORT :: d) = .ok (selectedExport cfg ++ r) := by
  have hfresh : lookupDef (predefined cfg) DLL_EXPORT = none := by
    obtain ⟨w⟩ := cfg
    cases w <;> rfl
  obtain ⟨r, hr⟩ := expandLine_total ((DLL_EXPORT, selectedExport cfg) :: predefined cfg) d
  refine ⟨r, ?_, ?_⟩
  · simp [preprocessAfterHeader, preprocessWith, includeHeader_predefined, hr]
  · simp only [preprocessAfterHeader, preprocessWith, includeHeader_predefined]
    rw [expandLine_DLL_EXPORT_cons _ _ _ hfresh, expand_selectedExport, hr]

/-- In every configuration, `DLL_EXPORT DLL_EXPORT d` preprocesses to the
selected replacement list twice, followed by what `d` preprocesses to. -/
theorem preprocess_DLL_EXPORT_twice (cfg : BuildConfig) (d : List Token) :
    ∃ r, preprocessAfterHeader cfg d = .ok r ∧
      preprocessAfterHeader cfg (.ident DLL_EXPORT :: .ident DLL_EXPORT :: d) =
        .ok (selectedExport cfg ++ (selectedExport cfg ++ r)) := by
  obtain ⟨r, hr, hone⟩ := preprocess_DLL_EXPORT_cons cfg d
  obtain ⟨r2, hr2, htwo⟩ := preprocess_DLL_EXPORT_cons cfg (.ident DLL_EXPORT :: d)
  rw [hone] at hr2
  cases hr2
  exact ⟨r, hr, htwo⟩

/-! ## The two branches -/

/-- C1: when `_WIN32` is defined, the header defines `DLL_EXPORT` with the
replacement list `extern "C" __declspec(dllexport)`, and a use of `DLL_EXPORT`
expands to exactly these six tokens: the C linkage specifier followed by the
declare-export modifier and nothing else, in particular no visibility
attribute. -/
theorem windows_expansion_exact (cfg : BuildConfig)
    (hwin : isDefined (predefined cfg) _WIN32 = true) :
    definitionAfterHeader (predefined cfg) DLL_EXPORT =
        some [.ident "extern", .str "C", .ident "__declspec", .punct "(",
              .ident "dllexport", .punct ")"] ∧
      preprocessAfterHeader cfg [.ident DLL_EXPORT] =
        .ok [.ident "extern", .str "C", .ident "__declspec", .punct "(",
             .ident "dllexport", .punct ")"] ∧
      ([.ident "extern", .str "C", .ident "__declspec", .punct "(",
        .ident "dllexport", .punct ")"] : List Token) = linkageC ++ declspecDllexport ∧
      Token.ident "visibility" ∉ linkageC ++ declspecDllexport ∧
      Token.ident "__attribute" ∉ linkageC ++ declspecDllexport := by
  obtain ⟨w⟩ := cfg
  cases w with
  | false => exact absurd hwin (by decide)
  | true => exact ⟨rfl, rfl, rfl, by decide, by decide⟩

/-- The Windows configuration defines `_WIN32`, and there `DLL_EXPORT` expands
to `extern "C" __declspec(dllexport)`. -/
theorem windows_expansion_exact_witness :
    isDefined (predefined ⟨true⟩) _WIN32 = true ∧
      preprocessAfterHeader ⟨true⟩ [.ident DLL_EXPORT] =
        .ok [.ident "extern", .str "C", .ident "__declspec", .punct "(",
             .ident "dllexport", .punct ")"] :=
  ⟨rfl, (windows_expansion_exact ⟨true⟩ rfl).2.1⟩

/-- C2: when `_WIN32` is not defined, the header defines `DLL_EXPORT` with the
replacement list `extern "C" __attribute((visibility("default")))`, and a use of
`DLL_EXPORT` expands to exactly these eleven tokens: the C linkage specifier
followed by one attribute holding `visibility("default")` and nothing else. The
only string literals are `"C"` and `"default"` (so not `"hidden"`), and
`__declspec` does not occur. -/
theorem posix_expansion_exact (cfg : BuildConfig)
    (hposix : isDefined (predefined cfg) _WIN32 = false) :
    definitionAfterHeader (predefined cfg) DLL_EXPORT =
        some [.ident "extern", .str "C", .ident "__attribute", .punct "(", .punct "(",
              .ident "visibility", .punct "(", .str "default", .punct ")", .punct ")",
              .punct ")"] ∧
      preprocessAfterHeader cfg [.ident DLL_EXPORT] =
        .ok [.ident "extern", .str "C", .ident "__attribute", .punct "(", .punct "(",
             .ident "visibility", .punct "(", .str "default", .punct ")", .punct ")",
             .punct ")"] ∧
      ([.ident "extern", .str "C", .ident "__attribute", .punct "(", .punct "(",
        .ident "visibility", .punct "(", .str "default", .punct ")", .punct ")",
        .punct ")"] : List Token) = linkageC ++ attributeVisibilityDefault ∧
      (∀ s, Token.str s ∈ linkageC ++ attributeVisibilityDefault → s = "C" ∨ s = "default") ∧
      Token.str "hidden" ∉ linkageC ++ attributeVisibilityDefault ∧
      Token.ident "__declspec" ∉ linkageC ++ attributeVisibilityDefault ∧
      Token.ident "dllexport" ∉ linkageC ++ attributeVisibilityDefault := by
  obtain ⟨w⟩ := cfg
  cases w with
  | true => exact absurd hposix (by decide)
  | false =>
      refine ⟨rfl, rfl, rfl, ?_, by decide, by decide, by decide⟩
      intro s hs
      simp [linkageC, attributeVisibilityDefault] at hs
      exact hs

/-- The other configuration leaves `_WIN32` undefined, and there `DLL_EXPORT`
expands to `extern "C" __attribute((visibility("default")))`. -/
theorem posix_expansion_exact_witness :
    isDefined (predefined ⟨false⟩) _WIN32 = false ∧
      preprocessAfterHeader ⟨false⟩ [.ident DLL_EXPORT] =
        .ok [.ident "extern", .str "C", .ident "__attribute", .punct "(", .punct "(",
             .ident "visibility", .punct "(", .str "default", .punct ")", .punct ")",
             .punct ")"] :=
  ⟨rfl, (posix_expansion_exact ⟨false⟩ rfl).2.1⟩

/-- C3: in every build configuration the header is processed without a
diagnostic and leaves `DLL_EXPORT` defined, with the replacement list of line 6
when `_WIN32` is defined and that of line 8 otherwise, hence with exactly one of
the two and never with an empty one. The header has no `#error` line and its
only `#define` lines are these two. -/
theorem header_always_defines (cfg : BuildConfig) :
    includeHeader (predefined cfg) =
        .ok ((DLL_EXPORT, if cfg.win32 then windowsExport else posixExport) ::
              predefined cfg) ∧
      (∃ env, includeHeader (predefined cfg) = .ok env ∧ isDefined env DLL_EXPORT = true) ∧
      ((definitionAfterHeader (predefined cfg) DLL_EXPORT = some windowsExport ∧
          definitionAfterHeader (predefined cfg) DLL_EXPORT ≠ some posixExport) ∨
        (definitionAfterHeader (predefined cfg) DLL_EXPORT = some posixExport ∧
          definitionAfterHeader (predefined cfg) DLL_EXPORT ≠ some windowsExport)) ∧
      definitionAfterHeader (predefined cfg) DLL_EXPORT ≠ none ∧
      definitionAfterHeader (predefined cfg) DLL_EXPORT ≠ some [] ∧
      Line.error ∉ dllexport_h ∧
      (∀ name body, Line.define name body ∈ dllexport_h →
        name = DLL_EXPORT ∧ (body = windowsExport ∨ body = posixExport)) := by
  have hlines : ∀ name body, Line.define name body ∈ dllexport_h →
      name = DLL_EXPORT ∧ (body = windowsExport ∨ body = posixExport) := by
    intro name body hmem
    simp [dllexport_h] at hmem
    rcases hmem with ⟨h1, h2⟩ | ⟨h1, h2⟩
    · exact ⟨h1, Or.inl h2⟩
    · exact ⟨h1, Or.inr h2⟩
  obtain ⟨w⟩ := cfg
  cases w with
  | true =>
      exact ⟨rfl, ⟨_, rfl, rfl⟩, Or.inl ⟨rfl, by decide⟩, by decide, by decide, by decide,
        hlines⟩
  | false =>
      exact ⟨rfl, ⟨_, rfl, rfl⟩, Or.inr ⟨rfl, by decide⟩, by decide, by decide, by decide,
        hlines⟩

/-! ## What the two branches share -/

/-- In every build configuration the replacement list of `DLL_EXPORT` begins
with the tokens `extern "C"`, and so does the preprocessed form of every line
`DLL_EXPORT d`. The two replacement lists are `extern "C"` followed by
`__declspec(dllexport)`, respectively by `__attribute((visibility("default")))`:
they differ from the token after `extern "C"` on, and only there. This is a
statement on tokens only: which language linkage the declared name ends up
with depends on the rest of the declaration as well (a nested
`extern "C++"` in `d`, for one) and is not expressed here. -/
theorem expansion_starts_with_linkageC (cfg : BuildConfig) :
    (∃ rest, definitionAfterHeader (predefined cfg) DLL_EXPORT = some (linkageC ++ rest)) ∧
      (∀ d, ∃ r, preprocessAfterHeader cfg (.ident DLL_EXPORT :: d) = .ok r ∧
        linkageC <+: r) ∧
      windowsExport = linkageC ++ declspecDllexport ∧
      posixExport = linkageC ++ attributeVisibilityDefault ∧
      linkageC = [Token.ident "extern", Token.str "C"] ∧
      declspecDllexport.head? ≠ attributeVisibilityDefault.head? := by
  refine ⟨?_, ?_, rfl, rfl, rfl, by decide⟩
  · obtain ⟨w⟩ := cfg
    cases w with
    | true => exact ⟨declspecDllexport, rfl⟩
    | false => exact ⟨attributeVisibilityDefault, rfl⟩
  · intro d
    obtain ⟨r, _, hr⟩ := preprocess_DLL_EXPORT_cons cfg d
    refine ⟨_, hr, ?_⟩
    obtain ⟨w⟩ := cfg
    cases w with
    | true => exact ⟨declspecDllexport ++ r, rfl⟩
    | false => exact ⟨attributeVisibilityDefault ++ r, rfl⟩

/-! ## Expansion as a prefix -/

/-- C8, as stated, fails: on a Windows build the line
`DLL_EXPORT DLL_EXPORT void f();`, that is `DLL_EXPORT d` with
`d = DLL_EXPORT void f();`, does not preprocess to the qualifier followed by
`d` itself, because the `DLL_EXPORT` inside `d` is replaced too; likewise
`DLL_EXPORT _WIN32` preprocesses to the qualifier followed by `1`. -/
theorem prefix_changes_mentioned_names :
    preprocessAfterHeader ⟨true⟩ (.ident DLL_EXPORT :: (.ident DLL_EXPORT :: sampleDecl)) =
        .ok (windowsExport ++ (windowsExport ++ sampleDecl)) ∧
      preprocessAfterHeader ⟨true⟩ (.ident DLL_EXPORT :: (.ident DLL_EXPORT :: sampleDecl)) ≠
        .ok (selectedExport ⟨true⟩ ++ (.ident DLL_EXPORT :: sampleDecl)) ∧
      preprocessAfterHeader ⟨true⟩ (.ident DLL_EXPORT :: [.ident _WIN32]) =
        .ok (windowsExport ++ [.num "1"]) ∧
      preprocessAfterHeader ⟨true⟩ (.ident DLL_EXPORT :: [.ident _WIN32]) ≠
        .ok (selectedExport ⟨true⟩ ++ [.ident _WIN32]) := by
  refine ⟨rfl, ?_, rfl, ?_⟩
  · intro h
    have h2 : preprocessAfterHeader ⟨true⟩
        (.ident DLL_EXPORT :: (.ident DLL_EXPORT :: sampleDecl)) =
        .ok (windowsExport ++ (windowsExport ++ sampleDecl)) := rfl
    rw [h2] at h
    injection h with h
    exact absurd h (by decide)
  · intro h
    have h2 : preprocessAfterHeader ⟨true⟩ (.ident DLL_EXPORT :: [.ident _WIN32]) =
        .ok (windowsExport ++ [.num "1"]) := rfl
    rw [h2] at h
    injection h with h
    exact absurd h (by decide)

/-- C8, amended: let `env` be the definitions in force before the header is
read, with `DLL_EXPORT` not among them nor any identifier of the two replacement
lists, and let `d` be a token sequence that mentions neither `DLL_EXPORT` nor a
name defined in `env`. Then `DLL_EXPORT d` preprocesses to the replacement list
selected by whether `_WIN32` is defined, followed by `d` itself, token for
token; and any other such `env2` that agrees with `env` on whether `_WIN32`
is defined gives the same result. Without the condition on `d`, in every build
configuration, the result is the selected list followed by what `d`
preprocesses to. -/
theorem prefix_expansion (env : Env) (d : List Token)
    (hfresh : lookupDef env DLL_EXPORT = none)
    (hqual : ∀ name, Token.ident name ∈ windowsExport ++ posixExport →
      lookupDef env name = none)
    (hd : ∀ name, Token.ident name ∈ d → name ≠ DLL_EXPORT ∧ lookupDef env name = none) :
    preprocessWith env (.ident DLL_EXPORT :: d) =
        .ok ((if isDefined env _WIN32 then windowsExport else posixExport) ++ d) ∧
      (∀ env2 : Env, lookupDef env2 DLL_EXPORT = none →
        (∀ name, Token.ident name ∈ windowsExport ++ posixExport →
          lookupDef env2 name = none) →
        (∀ name, Token.ident name ∈ d → lookupDef env2 name = none) →
        isDefined env2 _WIN32 = isDefined env _WIN32 →
        preprocessWith env2 (.ident DLL_EXPORT :: d) =
          preprocessWith env (.ident DLL_EXPORT :: d)) ∧
      (∀ (cfg : BuildConfig) (d1 : List Token), ∃ r,
        preprocessAfterHeader cfg d1 = .ok r ∧
        preprocessAfterHeader cfg (.ident DLL_EXPORT :: d1) = .ok (selectedExport cfg ++ r)) := by
  have key : ∀ e : Env, lookupDef e DLL_EXPORT = none →
      (∀ name, Token.ident name ∈ windowsExport ++ posixExport → lookupDef e name = none) →
      (∀ name, Token.ident name ∈ d → lookupDef e name = none) →
      preprocessWith e (.ident DLL_EXPORT :: d) =
        .ok ((if isDefined e _WIN32 then windowsExport else posixExport) ++ d) := by
    intro e he hq hde
    have hbody : expandTokens (e.length + 1) e
        (if isDefined e _WIN32 then windowsExport else posixExport) =
        .ok (if isDefined e _WIN32 then windowsExport else posixExport) := by
      simp only [expandTokens]
      apply expandList_unmentioned
      intro name hmem
      apply hq name
      cases hw : isDefined e _WIN32 <;> simp only [hw] at hmem
      · exact List.mem_append_right _ hmem
      · exact List.mem_append_left _ hmem
    have hrest : expandLine
        ((DLL_EXPORT, if isDefined e _WIN32 then windowsExport else posixExport) :: e) d =
        .ok d := by
      simp only [expandLine, expandTokens]
      apply expandList_unmentioned
      intro name hmem
      have hne : name ≠ DLL_EXPORT := (hd name hmem).1
      have hne2 : ¬ (DLL_EXPORT = name) := fun h => hne h.symm
      simp only [lookupDef, hne2, if_false]
      exact hde name hmem
    simp only [preprocessWith, includeHeader_fresh e he]
    rw [expandLine_DLL_EXPORT_cons _ _ _ he, hbody, hrest]
  refine ⟨key env hfresh hqual (fun name hmem => (hd name hmem).2), ?_, ?_⟩
  · intro env2 h2 hq2 hd2 hagree
    rw [key env2 h2 hq2 hd2, key env hfresh hqual (fun name hmem => (hd name hmem).2), hagree]
  · intro cfg d1
    exact preprocess_DLL_EXPORT_cons cfg d1

/-- On a Windows build, `DLL_EXPORT void f();` preprocesses to
`extern "C" __declspec(dllexport) void f();`. -/
theorem prefix_expansion_witness :
    preprocessWith (predefined ⟨true⟩) (.ident DLL_EXPORT :: sampleDecl) =
      .ok ((if isDefined (predefined ⟨true⟩) _WIN32 then windowsExport else posixExport) ++
        sampleDecl) :=
  (prefix_expansion (predefined ⟨true⟩) sampleDecl rfl
    (by
      intro name hmem
      simp [windowsExport, posixExport] at hmem
      rcases hmem with h | h | h | h | h | h <;> subst h <;> rfl)
    (by
      intro name hmem
      simp [sampleDecl] at hmem
      rcases hmem with h | h <;> subst h <;> exact ⟨by decide, rfl⟩)).1

/-! ## Reading the header twice -/

/-- C9: the header is not guarded against a second inclusion: its `#define`
is processed again, as shown by the diagnostic it gives when `DLL_EXPORT` is
already defined otherwise. Yet reading it twice is harmless: in every build
configuration the second reading defines `DLL_EXPORT` again with the
replacement list it already has, which is permitted and changes nothing, so
the definitions after two inclusions are those after one. -/
theorem double_inclusion_harmless (cfg : BuildConfig) :
    ∃ env, includeHeader (predefined cfg) = .ok env ∧
      includeHeader env = .ok env ∧
      lookupDef env DLL_EXPORT = some (selectedExport cfg) ∧
      defineName env DLL_EXPORT (selectedExport cfg) = .ok env ∧
      (∀ name, Line.ifndef name ∉ dllexport_h) ∧
      includeHeader ((DLL_EXPORT, []) :: predefined cfg) = .error (.redefined DLL_EXPORT) := by
  have hlines : ∀ name, Line.ifndef name ∉ dllexport_h := by
    intro name hmem
    simp [dllexport_h] at hmem
  obtain ⟨w⟩ := cfg
  cases w with
  | true => exact ⟨_, rfl, rfl, rfl, rfl, hlines, rfl⟩
  | false => exact ⟨_, rfl, rfl, rfl, rfl, hlines, rfl⟩

end DllExport
